import Mathlib

/-!
Verification of the NuFleet-AI-SOP pipeline (`pipeline.py`, `app.py`).

The development shallowly embeds the pure computational core of the
repository: the timestamp-to-seconds conversion, the timestamp-tag
substitution pass of `process_sop_content`, the model-list prioritisation of
`get_available_models`, the polling loop of `wait_for_files_active`, the
regex-chain markdown-to-HTML conversion of `specific_markdown_to_html`, and
the upload calls issued by `generate_sop`.

External effects are modelled as oracle parameters:
* frame extraction (`extract_frame_base64`, OpenCV) is an oracle
  `String → Int → Option String` from (video path, seconds) to the data-URI
  string, `none` meaning the video could not be opened or no frame decoded;
* the provider file store (`genai.get_file`) is an oracle `Nat → String`
  giving the state name returned by each successive poll.

Python exceptions are modelled as `none` / `Except.error` results.
Modelling restrictions (noted where relevant): regex `\d` and `\s` and
`int()` digits are modelled over their ASCII ranges, and the underscore
digit separators accepted by Python's `int()` are not modelled; none of the
inputs relevant here use either feature.
-/

/-- ASCII fragment of Python's `\s` class (and of `str.strip()` /
`int()` whitespace): space, tab, newline, carriage return, vertical tab,
form feed. -/
def isPySpace (c : Char) : Bool :=
  c = ' ' || c = '\t' || c = '\n' || c = '\r' || c = '\x0b' || c = '\x0c'

/-- Leading- and trailing-whitespace strip, as `int()` applies to its
argument before conversion. -/
def pyStrip (l : List Char) : List Char :=
  ((l.dropWhile isPySpace).reverse.dropWhile isPySpace).reverse

/-- Accumulator loop reading a run of ASCII decimal digits; `none` as soon
as a non-digit is met. -/
def digitsToNatAux : List Char → Nat → Option Nat
  | [], acc => some acc
  | c :: rest, acc =>
    if c.isDigit then digitsToNatAux rest (acc * 10 + (c.toNat - 48)) else none

/-- Value of a non-empty all-digit character list; `none` otherwise. -/
def digitsToNat : List Char → Option Nat
  | [] => none
  | l => digitsToNatAux l 0

/-- Python's `int(str)`: strip whitespace, optional single sign, then a
non-empty digit run.  `none` models the `ValueError` raised on any other
input. -/
def pyInt (l : List Char) : Option Int :=
  match pyStrip l with
  | [] => none
  | c :: r =>
    if c = '+' then (digitsToNat r).map Int.ofNat
    else if c = '-' then (digitsToNat r).map (fun n => -(n : Int))
    else (digitsToNat (c :: r)).map Int.ofNat

/-- Python's `str.split(':')`: splits on every colon and keeps empty
pieces, so the result is always non-empty. -/
def pySplit : List Char → List (List Char)
  | [] => [[]]
  | c :: rest =>
    if c = ':' then [] :: pySplit rest
    else
      match pySplit rest with
      | [] => [[c]]
      | h :: t => (c :: h) :: t

/-- `list(map(int, parts))`: all-or-nothing integer conversion, `none`
modelling the `ValueError` escaping from the first failing part. -/
def mapIntParts : List (List Char) → Option (List Int)
  | [] => some []
  | p :: ps =>
    match pyInt p, mapIntParts ps with
    | some v, some vs => some (v :: vs)
    | _, _ => none

/-- `pipeline.time_str_to_seconds`: split on `:`, convert every part with
`int`, then 2 parts mean `M*60+S`, 3 parts mean `H*3600+M*60+S`, and any
other number of parts yields 0.  `none` models the `ValueError` raised by
`int` on a non-integer part. -/
def time_str_to_seconds (s : String) : Option Int :=
  match mapIntParts (pySplit s.data) with
  | none => none
  | some [a, b] => some (a * 60 + b)
  | some [a, b, c] => some (a * 3600 + b * 60 + c)
  | some _ => some 0

/-!
## Frame annotator (`pipeline.process_sop_content`)

The source applies `re.sub` with the pattern
`\[TIMESTAMP:\s*(\d{1,2}:\d{2})\]` over the document text.  `re.sub`
semantics: scan left to right, at each position try to match; on a match,
splice in the replacement produced by `replace_match` and continue after
the matched text; otherwise keep the character.  Both `\s*` (followed by a
digit) and `\d{1,2}` (followed by `:`) are deterministic here because the
greedy element and its follower draw from disjoint character sets, so the
matcher below needs no backtracking.
-/

/-- The literal part `[TIMESTAMP:` of the tag pattern. -/
def hdrChars : List Char := "[TIMESTAMP:".data

/-- Match a literal character sequence at the head of the input, returning
the rest. -/
def dropLit : List Char → List Char → Option (List Char)
  | [], l => some l
  | _ :: _, [] => none
  | p :: ps, c :: cs => if c = p then dropLit ps cs else none

/-- Match the group-and-close part `(\d{1,2}:\d{2})\]` at the head of the
input, returning the captured group and the rest after `]`. -/
def matchTime (l : List Char) : Option (List Char × List Char) :=
  match l with
  | d1 :: d2 :: rest =>
    if d1.isDigit then
      if d2.isDigit then
        match rest with
        | c :: e1 :: e2 :: b :: rest3 =>
          if c = ':' ∧ e1.isDigit ∧ e2.isDigit ∧ b = ']' then
            some ([d1, d2, ':', e1, e2], rest3)
          else none
        | _ => none
      else if d2 = ':' then
        match rest with
        | e1 :: e2 :: b :: rest3 =>
          if e1.isDigit ∧ e2.isDigit ∧ b = ']' then
            some ([d1, ':', e1, e2], rest3)
          else none
        | _ => none
      else none
    else none
  | _ => none

/-- Try the whole tag pattern `\[TIMESTAMP:\s*(\d{1,2}:\d{2})\]` at the
head of the input.  Returns (matched text, captured group, rest). -/
def tryMatch (l : List Char) : Option (List Char × List Char × List Char) :=
  match dropLit hdrChars l with
  | none => none
  | some r1 =>
    match matchTime (r1.dropWhile isPySpace) with
    | none => none
    | some (g, rest) =>
      some (hdrChars ++ r1.takeWhile isPySpace ++ g ++ [']'], g, rest)

/-- One segment of the `re.sub` scan: a non-matching character, or a
matched tag (original matched text, captured time group). -/
inductive Seg where
  | lit (c : Char)
  | tag (orig : List Char) (group : List Char)
deriving DecidableEq

/-- The original text of a segment. -/
def segText : Seg → List Char
  | .lit c => [c]
  | .tag o _ => o

/-- Whether a segment is a plain (non-matching) character. -/
def Seg.isLit : Seg → Bool
  | .lit _ => true
  | .tag _ _ => false

/-- The left-to-right `re.sub` scan, decomposing the text into literal
characters and tag matches.  Fuel counts remaining steps; every step
consumes at least one character, so `fuel = length` is adequate (see
`tokenizeF_join`). -/
def tokenizeF : Nat → List Char → List Seg
  | 0, _ => []
  | fuel + 1, l =>
    match tryMatch l with
    | some (o, g, rest) => .tag o g :: tokenizeF fuel rest
    | none =>
      match l with
      | [] => []
      | c :: cs => .lit c :: tokenizeF fuel cs

/-- Decomposition of a document text into non-matching characters and
timestamp-tag matches, in source order. -/
def tokenize (l : List Char) : List Seg := tokenizeF l.length l

/-- The replacement text `f"\n![Snapshot at {time_str}]({image_data})\n"`
built by `replace_match` on a successful extraction. -/
def snapshotRef (g : List Char) (img : String) : List Char :=
  "\n![Snapshot at ".data ++ g ++ "](".data ++ img.data ++ ")\n".data

/-- `replace_match` applied to one segment: literal characters pass
through; for a tag, parse the captured group (`none` would mean the
`ValueError` of `int` escaping — proven unreachable), extract the frame at
that offset via the oracle, and substitute the snapshot markdown, or keep
the original matched text when extraction fails. -/
def renderSeg (extract : String → Int → Option String) (path : String) :
    Seg → Option (List Char)
  | .lit c => some [c]
  | .tag o g =>
    match time_str_to_seconds (String.mk g) with
    | none => none
    | some secs =>
      match extract path secs with
      | some img => some (snapshotRef g img)
      | none => some o

/-- Total description of the per-segment outcome, used to state the
substitution invariant: one snapshot reference on successful extraction,
the original text otherwise. -/
def renderedSeg (extract : String → Int → Option String) (path : String) :
    Seg → List Char
  | .lit c => [c]
  | .tag o g =>
    match extract path ((time_str_to_seconds (String.mk g)).getD 0) with
    | some img => snapshotRef g img
    | none => o

/-- Render all segments, concatenating; `none` propagates an exception
from any segment. -/
def renderSegs (extract : String → Int → Option String) (path : String) :
    List Seg → Option (List Char)
  | [] => some []
  | s :: ss =>
    match renderSeg extract path s, renderSegs extract path ss with
    | some r, some rs => some (r ++ rs)
    | _, _ => none

/-- `pipeline.process_sop_content text video_path`, with frame extraction
(`extract_frame_base64`) abstracted as the oracle `extract`:
`pattern.sub(replace_match, text)`. -/
def process_sop_content (extract : String → Int → Option String)
    (video_path : String) (text : String) : Option String :=
  (renderSegs extract video_path (tokenize text.data)).map fun l => String.mk l


/-!
## Model session manager (`pipeline.get_available_models`)

The source filters the provider's model list down to those whose
`supported_generation_methods` contain `'generateContent'`, collects their
names and sorts them with `list.sort` (a stable sort) under the key
`0 if "gemini-1.5-pro" in x else 1 if "gemini-1.5-flash" in x else 2`.
The provider response is the input list; the `except` branch of the source
(provider error → `[]`) concerns the external call and is outside this
embedding.  `list.sort` is embedded as a stable insertion sort: a stable
sort by a fixed key is extensionally unique, so this agrees with CPython's
Timsort on every input.
-/

/-- A provider model entry: its name and supported generation methods. -/
structure GenModel where
  name : String
  supported_generation_methods : List String

/-- Python's substring test `needle in haystack` on character lists. -/
def pyInChars : List Char → List Char → Bool
  | p, [] => p.isEmpty
  | p, c :: cs => p.isPrefixOf (c :: cs) || pyInChars p cs

/-- Python's `needle in haystack` for strings. -/
def pyInStr (needle haystack : String) : Bool :=
  pyInChars needle.data haystack.data

/-- The sort key of `get_available_models`. -/
def modelSortKey (x : String) : Nat :=
  if pyInStr "gemini-1.5-pro" x then 0
  else if pyInStr "gemini-1.5-flash" x then 1
  else 2

/-- Stable insertion of one name into a key-sorted list: placed before the
first strictly-later-keyed element, after all earlier- or equal-keyed
ones. -/
def insertByKey (x : String) : List String → List String
  | [] => [x]
  | y :: ys => if modelSortKey x ≤ modelSortKey y then x :: y :: ys else y :: insertByKey x ys

/-- Stable sort by `modelSortKey` (insertion sort). -/
def sortModels : List String → List String
  | [] => []
  | x :: xs => insertByKey x (sortModels xs)

/-- Names of the models supporting `generateContent`, in provider order. -/
def generationCapableNames (ms : List GenModel) : List String :=
  (ms.filter fun m => m.supported_generation_methods.contains "generateContent").map
    (fun m => m.name)

/-- `pipeline.get_available_models`, applied to the provider's response. -/
def get_available_models (ms : List GenModel) : List String :=
  sortModels (generationCapableNames ms)

/-- The names of a list holding a given sort key, in provider order. -/
def tierNames (k : Nat) (names : List String) : List String :=
  names.filter fun x => modelSortKey x == k

/-!
## Asset uploader polling loop (`pipeline.wait_for_files_active`)

For each file (in order) the source calls `genai.get_file(name)`, then
while the state is `"PROCESSING"` sleeps 2 seconds and refetches; when the
loop exits with a state other than `"ACTIVE"` it raises
`Exception(f"File {name} failed to process")`.  The provider is modelled
per file as an oracle `Nat → String` giving the state returned by the
i-th `get_file` call; `time.sleep(2)` is modelled by accumulating 2 into a
seconds counter.  `fuel` bounds how many polls the model can simulate;
`none` means the loop is still polling after `fuel` observations — the
source itself has no timeout.
-/

/-- One file handle: its name and the oracle of successive poll results. -/
abbrev PyFile := String × (Nat → String)

/-- The inner `while file.state.name == "PROCESSING"` loop: returns the
first non-`PROCESSING` state observed together with the accumulated sleep
seconds, or `none` if `fuel` polls were all `PROCESSING`. -/
def pollUntilSettled (st : Nat → String) : Nat → Nat → Nat → Option (String × Nat)
  | 0, _, _ => none
  | fuel + 1, i, slept =>
    if st i = "PROCESSING" then pollUntilSettled st fuel (i + 1) (slept + 2)
    else some (st i, slept)

/-- `pipeline.wait_for_files_active`: poll each file in order; raise
(`Except.error`, with the source's message) on the first file that settles
in a state other than `"ACTIVE"`; return the total seconds slept on
success. -/
def wait_for_files_active : List PyFile → Nat → Nat → Option (Except String Nat)
  | [], _, slept => some (Except.ok slept)
  | (name, st) :: rest, fuel, slept =>
    match pollUntilSettled st fuel 0 slept with
    | none => none
    | some (s, slept') =>
      if s = "ACTIVE" then wait_for_files_active rest fuel slept'
      else some (Except.error ("File " ++ name ++ " failed to process"))

/-!
## PDF exporter markdown conversion (`app.specific_markdown_to_html`)

The source applies, in order: `\*\*(.*?)\*\*` → `<b>\1</b>`,
`\*(.*?)\*` → `<i>\1</i>`, the three multiline header patterns
`^#\s+(.*)$` → `<h1>\1</h1>` (likewise `##`/`###`), the multiline list
patterns `^-\s+(.*)$` and `^\d+\.\s+(.*)$` → `<li>\1</li>`,
`!\[.*?\]\((.*?)\)` → `<img src="\1" width="300">`, and finally
`str.replace('\n', '<br>')`.  Each pattern is deterministic (the lazy
`.*?` takes the shortest non-newline span before its closer; the greedy
`\s+`/`\d+`/`(.*)` runs are maximal and their followers cannot overlap
them), so each pass is embedded as a left-to-right scan with a
position-aware matcher.  A matcher receives the at-line-start flag (for
the `re.MULTILINE` anchor `^`) and the remaining text, and returns the
replacement together with (consumed length − 1); consumption is always
positive.
-/

/-- A single-pattern matcher: at-line-start flag and remaining text to
optional (replacement, consumed − 1). -/
abbrev Matcher := Bool → List Char → Option (List Char × Nat)

/-- Shortest prefix made of non-newline characters that is followed by
`closer` (the lazy `(.*?)` of the patterns, `re.DOTALL` off): returns the
captured span and the rest after the closer. -/
def lazyUntil (closer : List Char) : List Char → Option (List Char × List Char)
  | [] => if closer.isEmpty then some ([], []) else none
  | c :: cs =>
    if closer.isPrefixOf (c :: cs) then some ([], (c :: cs).drop closer.length)
    else if c = '\n' then none
    else (lazyUntil closer cs).map fun pr => (c :: pr.1, pr.2)

/-- Matcher for the delimiter-pair patterns `\*\*(.*?)\*\*` and
`\*(.*?)\*`. -/
def inlineMatcher (delim openT closeT : List Char) : Matcher := fun _ l =>
  if delim.isPrefixOf l then
    match lazyUntil delim (l.drop delim.length) with
    | some (cap, _) => some (openT ++ cap ++ closeT, delim.length + cap.length + delim.length - 1)
    | none => none
  else none

/-- Matcher for the anchored line patterns `^LEAD\s+(.*)$` (headers and
unordered list items): leading literal, a maximal non-empty whitespace
run, then the maximal non-newline capture ending at the `$` anchor. -/
def lineTagMatcher (lead openT closeT : List Char) : Matcher := fun atStart l =>
  if atStart && lead.isPrefixOf l then
    let r1 := l.drop lead.length
    let ws := r1.takeWhile isPySpace
    if ws.isEmpty then none
    else
      let cap := (r1.drop ws.length).takeWhile fun c => !(c == '\n')
      some (openT ++ cap ++ closeT, lead.length + ws.length + cap.length - 1)
  else none

/-- Matcher for the numbered-list pattern `^\d+\.\s+(.*)$`. -/
def olistMatcher : Matcher := fun atStart l =>
  if atStart then
    let ds := l.takeWhile Char.isDigit
    if ds.isEmpty then none
    else
      match l.drop ds.length with
      | [] => none
      | c :: r1 =>
        if c = '.' then
          let ws := r1.takeWhile isPySpace
          if ws.isEmpty then none
          else
            let cap := (r1.drop ws.length).takeWhile fun ch => !(ch == '\n')
            some ("<li>".data ++ cap ++ "</li>".data,
              ds.length + 1 + ws.length + cap.length - 1)
        else none
  else none

/-- Matcher for the image pattern `!\[.*?\]\((.*?)\)`. -/
def imageMatcher : Matcher := fun _ l =>
  if "![".data.isPrefixOf l then
    match lazyUntil "]".data (l.drop 2) with
    | none => none
    | some (alt, r1) =>
      match r1 with
      | [] => none
      | c :: r2 =>
        if c = '(' then
          match lazyUntil ")".data r2 with
          | none => none
          | some (src, _) =>
            some ("<img src=\"".data ++ src ++ "\" width=\"300\">".data,
              2 + alt.length + 1 + 1 + src.length + 1 - 1)
        else none
  else none

/-- One `re.sub` pass: scan left to right, substituting every match and
keeping non-matching characters; the at-line-start flag tracks the
`re.MULTILINE` `^` anchor over the original text.  Every match consumes at
least one character, so `fuel = length` is adequate. -/
def subScanF (m : Matcher) : Nat → Bool → List Char → List Char
  | 0, _, l => l
  | _ + 1, _, [] => []
  | fuel + 1, atStart, c :: cs =>
    match m atStart (c :: cs) with
    | some (rep, k) =>
      rep ++ subScanF m fuel (((c :: cs).getD k c) == '\n') (cs.drop k)
    | none => c :: subScanF m fuel (c == '\n') cs

/-- One full `re.sub(pattern, repl, text)` pass. -/
def subRegex (m : Matcher) (l : List Char) : List Char :=
  subScanF m l.length true l

/-- `html.replace('\n', '<br>')`. -/
def brPass : List Char → List Char
  | [] => []
  | c :: cs => (if c = '\n' then "<br>".data else [c]) ++ brPass cs

/-- All substitutions of `specific_markdown_to_html` up to but excluding
the final newline-to-`<br>` replacement, in source order: bold, italic,
h1, h2, h3, unordered list items, numbered list items, images. -/
def markdownStagesBeforeBr (s : String) : String :=
  String.mk
    (subRegex imageMatcher
      (subRegex olistMatcher
        (subRegex (lineTagMatcher "-".data "<li>".data "</li>".data)
          (subRegex (lineTagMatcher "###".data "<h3>".data "</h3>".data)
            (subRegex (lineTagMatcher "##".data "<h2>".data "</h2>".data)
              (subRegex (lineTagMatcher "#".data "<h1>".data "</h1>".data)
                (subRegex (inlineMatcher "*".data "<i>".data "</i>".data)
                  (subRegex (inlineMatcher "**".data "<b>".data "</b>".data)
                    s.data))))))))

/-- `app.specific_markdown_to_html`: the eight regex substitutions in
source order followed by the newline-to-`<br>` replacement. -/
def specific_markdown_to_html (s : String) : String :=
  String.mk (brPass (markdownStagesBeforeBr s).data)

/-!
## Upload calls of `pipeline.generate_sop`

`generate_sop` calls `upload_to_gemini(video_path, mime_type="video/mp4")`
and, when an observation image path is given,
`upload_to_gemini(observation_image_path, mime_type="image/jpeg")`; both
MIME types are hardcoded literals, independent of the file.  The trace of
upload calls (path and `mime_type` argument, in call order) is extracted
from the source as a function of the inputs.  `app.py` restricts the
upload widgets to the container/image types listed below.
-/

/-- One `genai.upload_file(path, mime_type=...)` call. -/
inductive UploadCall where
  | upload (path : String) (mime_type : Option String)
deriving DecidableEq

/-- Video container types accepted by the `app.py` file uploader. -/
def video_upload_types : List String := ["mp4", "mov", "avi", "mkv"]

/-- Image types accepted by the `app.py` observation-image uploader. -/
def image_upload_types : List String := ["jpg", "jpeg", "png"]

/-- The upload calls issued by `generate_sop(video_path, ...,
observation_image_path)`, in order. -/
def generate_sop_uploads (video_path : String) (observation_image_path : Option String) :
    List UploadCall :=
  UploadCall.upload video_path (some "video/mp4") ::
    (match observation_image_path with
     | some p => [UploadCall.upload p (some "image/jpeg")]
     | none => [])
theorem pySplit_ne_nil (l : List Char) : pySplit l ≠ [] := by
  induction l with
  | nil => simp [pySplit]
  | cons c rest ih =>
    simp only [pySplit]
    split
    · simp
    · match h : pySplit rest with
      | [] => exact absurd h ih
      | hd :: tl => simp

theorem pySplit_no_colon (l : List Char) (h : ∀ c ∈ l, c ≠ ':') :
    pySplit l = [l] := by
  induction l with
  | nil => rfl
  | cons c rest ih =>
    have hc : c ≠ ':' := h c (List.mem_cons_self c rest)
    have hrest : pySplit rest = [rest] := ih (fun x hx => h x (List.mem_cons_of_mem c hx))
    simp [pySplit, hc, hrest]

theorem pySplit_append (a r : List Char) (h : ∀ c ∈ a, c ≠ ':') :
    pySplit (a ++ ':' :: r) = a :: pySplit r := by
  induction a with
  | nil => simp [pySplit]
  | cons c rest ih =>
    have hc : c ≠ ':' := h c (List.mem_cons_self c rest)
    have hr := ih (fun x hx => h x (List.mem_cons_of_mem c hx))
    simp only [List.cons_append, pySplit, hc, if_false]
    rw [show rest.append (':' :: r) = rest ++ ':' :: r from rfl, hr]

theorem digitsToNatAux_digits {l : List Char} {acc v : Nat}
    (h : digitsToNatAux l acc = some v) : ∀ c ∈ l, c.isDigit = true := by
  induction l generalizing acc with
  | nil => simp
  | cons c rest ih =>
    intro x hx
    simp only [digitsToNatAux] at h
    by_cases hc : c.isDigit
    · rcases List.mem_cons.mp hx with rfl | hx'
      · exact hc
      · exact ih (by simpa [hc] using h) x hx'
    · simp [hc] at h

theorem digitsToNat_digits {l : List Char} {v : Nat}
    (h : digitsToNat l = some v) : ∀ c ∈ l, c.isDigit = true := by
  cases l with
  | nil => simp
  | cons c rest => exact digitsToNatAux_digits h

theorem digitsToNat_ne_nil {l : List Char} {v : Nat}
    (h : digitsToNat l = some v) : l ≠ [] := by
  cases l with
  | nil => simp [digitsToNat] at h
  | cons c rest => simp

theorem isDigit_ne {c d : Char} (h : c.isDigit = true) (hd : d.isDigit = false) :
    c ≠ d := by
  rintro rfl
  exact Bool.noConfusion (h.symm.trans hd)

theorem digit_not_colon {c : Char} (h : c.isDigit = true) : c ≠ ':' :=
  isDigit_ne h (by decide)

theorem digit_not_space {c : Char} (h : c.isDigit = true) : isPySpace c = false := by
  cases hs : isPySpace c
  · rfl
  · exfalso
    simp only [isPySpace, Bool.or_eq_true, decide_eq_true_eq] at hs
    rcases hs with ((((h1 | h2) | h3) | h4) | h5) | h6 <;> subst_vars <;>
      exact absurd h (by decide)

theorem digitsToNatAux_some : ∀ (l : List Char) (acc : Nat),
    (∀ c ∈ l, c.isDigit = true) → ∃ v, digitsToNatAux l acc = some v := by
  intro l
  induction l with
  | nil => exact fun acc _ => ⟨acc, rfl⟩
  | cons c cs ih =>
    intro acc h
    simp only [digitsToNatAux, h c (List.mem_cons_self c cs), if_true]
    exact ih _ (fun x hx => h x (List.mem_cons_of_mem c hx))

theorem digitsToNat_some {l : List Char} (hd : ∀ c ∈ l, c.isDigit = true)
    (hne : l ≠ []) : ∃ v, digitsToNat l = some v := by
  cases l with
  | nil => exact absurd rfl hne
  | cons c cs => exact digitsToNatAux_some (c :: cs) 0 hd

theorem dropWhile_of_digits {l : List Char} (h : ∀ c ∈ l, c.isDigit = true) :
    l.dropWhile isPySpace = l := by
  cases l with
  | nil => rfl
  | cons c cs =>
    rw [List.dropWhile_cons, digit_not_space (h c (List.mem_cons_self c cs))]
    simp

theorem pyStrip_of_digits {l : List Char} (h : ∀ c ∈ l, c.isDigit = true) :
    pyStrip l = l := by
  have hrev : ∀ c ∈ l.reverse, c.isDigit = true :=
    fun c hc => h c (List.mem_reverse.mp hc)
  unfold pyStrip
  rw [dropWhile_of_digits h, dropWhile_of_digits hrev, List.reverse_reverse]

theorem pyInt_of_digitsToNat {l : List Char} {v : Nat}
    (h : digitsToNat l = some v) : pyInt l = some (v : Int) := by
  have hd := digitsToNat_digits h
  have hne := digitsToNat_ne_nil h
  unfold pyInt
  rw [pyStrip_of_digits hd]
  cases l with
  | nil => exact absurd rfl hne
  | cons c cs =>
    have hc := hd c (List.mem_cons_self c cs)
    split
    · rename_i heq
      exact absurd heq (by simp)
    · rename_i c' r heq
      injection heq with h1 h2
      subst h1
      subst h2
      rw [if_neg (isDigit_ne hc (by decide) : c ≠ '+'),
        if_neg (isDigit_ne hc (by decide) : c ≠ '-'), h]
      rfl

theorem time_str_two_part {a b : List Char} {va vb : Nat}
    (ha : digitsToNat a = some va) (hb : digitsToNat b = some vb) :
    time_str_to_seconds (String.mk (a ++ ':' :: b)) = some ((va : Int) * 60 + vb) := by
  have hda := digitsToNat_digits ha
  have hdb := digitsToNat_digits hb
  unfold time_str_to_seconds
  have hsplit : pySplit ((String.mk (a ++ ':' :: b)).data) = [a, b] := by
    show pySplit (a ++ ':' :: b) = [a, b]
    rw [pySplit_append a b (fun c hc => digit_not_colon (hda c hc)),
      pySplit_no_colon b (fun c hc => digit_not_colon (hdb c hc))]
  rw [hsplit]
  simp [mapIntParts, pyInt_of_digitsToNat ha, pyInt_of_digitsToNat hb]

theorem time_str_three_part {a b c : List Char} {va vb vc : Nat}
    (ha : digitsToNat a = some va) (hb : digitsToNat b = some vb)
    (hc : digitsToNat c = some vc) :
    time_str_to_seconds (String.mk (a ++ ':' :: (b ++ ':' :: c))) =
      some ((va : Int) * 3600 + (vb : Int) * 60 + vc) := by
  have hda := digitsToNat_digits ha
  have hdb := digitsToNat_digits hb
  have hdc := digitsToNat_digits hc
  unfold time_str_to_seconds
  have hsplit : pySplit ((String.mk (a ++ ':' :: (b ++ ':' :: c))).data) = [a, b, c] := by
    show pySplit (a ++ ':' :: (b ++ ':' :: c)) = [a, b, c]
    rw [pySplit_append a _ (fun x hx => digit_not_colon (hda x hx)),
      pySplit_append b c (fun x hx => digit_not_colon (hdb x hx)),
      pySplit_no_colon c (fun x hx => digit_not_colon (hdc x hx))]
  rw [hsplit]
  simp [mapIntParts, pyInt_of_digitsToNat ha, pyInt_of_digitsToNat hb,
    pyInt_of_digitsToNat hc]

theorem dropLit_eq (ps : List Char) : ∀ l r, dropLit ps l = some r → l = ps ++ r := by
  induction ps with
  | nil =>
    intro l r h
    simp only [dropLit, Option.some.injEq] at h
    simp [h]
  | cons p ps ih =>
    intro l r h
    cases l with
    | nil => simp [dropLit] at h
    | cons c cs =>
      simp only [dropLit] at h
      by_cases hc : c = p
      · subst hc
        rw [if_pos rfl] at h
        simpa using ih cs r h
      · rw [if_neg hc] at h
        exact absurd h (by simp)

theorem matchTime_spec {l g rest : List Char} (h : matchTime l = some (g, rest)) :
    l = g ++ ']' :: rest ∧
    ∃ a b : List Char, g = a ++ ':' :: b ∧ (a.length = 1 ∨ a.length = 2) ∧
      b.length = 2 ∧ (∀ c ∈ a, c.isDigit = true) ∧ (∀ c ∈ b, c.isDigit = true) := by
  unfold matchTime at h
  split at h
  case h_2 => exact absurd h (by simp)
  rename_i d1 d2 rest'
  split at h
  case isFalse => exact absurd h (by simp)
  rename_i h1
  split at h
  · -- two-digit minutes branch
    rename_i h2
    split at h
    case h_2 => exact absurd h (by simp)
    rename_i c e1 e2 b rest3
    split at h
    case isFalse => exact absurd h (by simp)
    rename_i hcond
    obtain ⟨hc, he1, he2, hb⟩ := hcond
    subst hc
    subst hb
    simp only [Option.some.injEq, Prod.mk.injEq] at h
    obtain ⟨hg, hr⟩ := h
    subst hg
    subst hr
    exact ⟨by simp, [d1, d2], [e1, e2], rfl, Or.inr rfl, rfl,
      by simp [List.forall_mem_cons, h1, h2], by simp [List.forall_mem_cons, he1, he2]⟩
  · -- one-digit minutes branch
    rename_i h2
    split at h
    case isFalse => exact absurd h (by simp)
    rename_i hcolon
    split at h
    case h_2 => exact absurd h (by simp)
    rename_i e1 e2 b rest3
    split at h
    case isFalse => exact absurd h (by simp)
    rename_i hcond
    obtain ⟨he1, he2, hb⟩ := hcond
    subst hcolon
    subst hb
    simp only [Option.some.injEq, Prod.mk.injEq] at h
    obtain ⟨hg, hr⟩ := h
    subst hg
    subst hr
    exact ⟨by simp, [d1], [e1, e2], rfl, Or.inl rfl, rfl,
      by simp [List.forall_mem_cons, h1], by simp [List.forall_mem_cons, he1, he2]⟩

theorem tryMatch_spec {l o g rest : List Char} (h : tryMatch l = some (o, g, rest)) :
    o ++ rest = l ∧ o ≠ [] ∧
    ∃ a b : List Char, g = a ++ ':' :: b ∧ (a.length = 1 ∨ a.length = 2) ∧
      b.length = 2 ∧ (∀ c ∈ a, c.isDigit = true) ∧ (∀ c ∈ b, c.isDigit = true) := by
  unfold tryMatch at h
  split at h
  case h_1 => exact absurd h (by simp)
  rename_i r1 hdrop
  split at h
  case h_1 => exact absurd h (by simp)
  rename_i g2 rest2 hmt
  simp only [Option.some.injEq, Prod.mk.injEq] at h
  obtain ⟨ho, hg, hr⟩ := h
  obtain ⟨hsplit, hshape⟩ := matchTime_spec hmt
  rw [← ho, ← hg, ← hr]
  refine ⟨?_, ?_, hshape⟩
  · have hl := dropLit_eq hdrChars l r1 hdrop
    calc (hdrChars ++ List.takeWhile isPySpace r1 ++ g2 ++ [']']) ++ rest2
        = hdrChars ++ (List.takeWhile isPySpace r1 ++ (g2 ++ ']' :: rest2)) := by
          simp [List.append_assoc]
      _ = hdrChars ++ (List.takeWhile isPySpace r1 ++ List.dropWhile isPySpace r1) := by
          rw [hsplit]
      _ = hdrChars ++ r1 := by rw [List.takeWhile_append_dropWhile]
      _ = l := hl.symm
  · intro hnil
    have : hdrChars = [] := (List.append_eq_nil.mp
      ((List.append_eq_nil.mp ((List.append_eq_nil.mp hnil).1)).1)).1
    exact absurd this (by decide)

theorem tryMatch_rest_length {l o g rest : List Char}
    (h : tryMatch l = some (o, g, rest)) : rest.length < l.length := by
  obtain ⟨happ, hne, _⟩ := tryMatch_spec h
  rw [← happ, List.length_append]
  have : 0 < o.length := List.length_pos.mpr hne
  omega

theorem tokenizeF_join : ∀ (fuel : Nat) (l : List Char), l.length ≤ fuel →
    ((tokenizeF fuel l).map segText).flatten = l := by
  intro fuel
  induction fuel with
  | zero =>
    intro l hl
    have : l = [] := List.length_eq_zero.mp (Nat.le_zero.mp hl)
    subst this
    rfl
  | succ fuel ih =>
    intro l hl
    simp only [tokenizeF]
    split
    · rename_i o g rest heq
      have hlen := tryMatch_rest_length heq
      have happ := (tryMatch_spec heq).1
      simp only [List.map_cons, List.flatten_cons, segText]
      rw [ih rest (by omega)]
      exact happ
    · split
      · rfl
      · rename_i c cs hnone
        simp only [List.map_cons, List.flatten_cons, segText]
        rw [ih cs (by simpa using Nat.le_of_succ_le_succ (by simpa using hl))]
        simp

theorem renderSeg_eq_renderedSeg {o g : List Char}
    (hshape : ∃ a b : List Char, g = a ++ ':' :: b ∧ (a.length = 1 ∨ a.length = 2) ∧
      b.length = 2 ∧ (∀ c ∈ a, c.isDigit = true) ∧ (∀ c ∈ b, c.isDigit = true))
    (e : String → Int → Option String) (p : String) :
    renderSeg e p (Seg.tag o g) = some (renderedSeg e p (Seg.tag o g)) := by
  obtain ⟨a, b, hg, hal, hbl, hda, hdb⟩ := hshape
  obtain ⟨va, hva⟩ := digitsToNat_some hda
    (by rcases hal with h | h <;> exact List.length_pos.mp (by omega))
  obtain ⟨vb, hvb⟩ := digitsToNat_some hdb (List.length_pos.mp (by omega))
  have hts : time_str_to_seconds (String.mk g) = some ((va : Int) * 60 + vb) := by
    rw [hg]
    exact time_str_two_part hva hvb
  simp only [renderSeg, renderedSeg, hts, Option.getD_some]
  cases e p ((va : Int) * 60 + vb) <;> rfl

theorem renderSegs_tokenizeF (e : String → Int → Option String) (p : String) :
    ∀ (fuel : Nat) (l : List Char), l.length ≤ fuel →
    renderSegs e p (tokenizeF fuel l) =
      some (((tokenizeF fuel l).map (renderedSeg e p)).flatten) := by
  intro fuel
  induction fuel with
  | zero => intro l _; rfl
  | succ fuel ih =>
    intro l hl
    simp only [tokenizeF]
    split
    · rename_i o g rest heq
      have hlen := tryMatch_rest_length heq
      have hshape := (tryMatch_spec heq).2.2
      simp only [renderSegs, renderSeg_eq_renderedSeg hshape e p, ih rest (by omega),
        List.map_cons, List.flatten_cons]
    · split
      · rfl
      · rename_i c cs hnone
        have hcs : cs.length ≤ fuel := by simpa using Nat.le_of_succ_le_succ (by simpa using hl)
        simp only [renderSegs, renderSeg, ih cs hcs, List.map_cons, List.flatten_cons,
          renderedSeg]

theorem renderSegs_all_lit (e : String → Int → Option String) (p : String) :
    ∀ segs : List Seg, (∀ s ∈ segs, s.isLit = true) →
    renderSegs e p segs = some ((segs.map segText).flatten) := by
  intro segs
  induction segs with
  | nil => intro _; rfl
  | cons s ss ih =>
    intro h
    cases s with
    | tag o g =>
      exact absurd (h _ (List.mem_cons_self _ _)) (by simp [Seg.isLit])
    | lit c =>
      simp only [renderSegs, renderSeg, ih (fun x hx => h x (List.mem_cons_of_mem _ hx)),
        List.map_cons, List.flatten_cons, segText]

theorem tokenizeF_tag_mem : ∀ (fuel : Nat) (l o g : List Char),
    Seg.tag o g ∈ tokenizeF fuel l → ∃ l2 rest, tryMatch l2 = some (o, g, rest) := by
  intro fuel
  induction fuel with
  | zero => intro l o g h; simp [tokenizeF] at h
  | succ fuel ih =>
    intro l o g h
    simp only [tokenizeF] at h
    cases heq : tryMatch l with
    | some x =>
      obtain ⟨o2, g2, rest2⟩ := x
      rw [heq] at h
      rcases List.mem_cons.mp h with hhd | htl
      · obtain ⟨ho, hg⟩ := Seg.tag.injEq .. ▸ hhd
        exact ⟨l, rest2, by rw [heq, ho, hg]⟩
      · exact ih rest2 o g htl
    | none =>
      rw [heq] at h
      cases l with
      | nil => simp at h
      | cons c cs =>
        rcases List.mem_cons.mp h with hhd | htl
        · exact absurd hhd (by simp)
        · exact ih cs o g htl

theorem modelSortKey_cases (x : String) :
    modelSortKey x = 0 ∨ modelSortKey x = 1 ∨ modelSortKey x = 2 := by
  unfold modelSortKey
  split_ifs <;> simp

theorem insertByKey_front {x : String} {l : List String}
    (h : ∀ y ∈ l, modelSortKey x ≤ modelSortKey y) : insertByKey x l = x :: l := by
  cases l with
  | nil => rfl
  | cons y ys => simp [insertByKey, h y (List.mem_cons_self y ys)]

theorem insertByKey_skip {x : String} : ∀ (l m : List String),
    (∀ y ∈ l, modelSortKey y < modelSortKey x) →
    insertByKey x (l ++ m) = l ++ insertByKey x m := by
  intro l
  induction l with
  | nil => intro m _; rfl
  | cons y ys ih =>
    intro m h
    have hy : modelSortKey y < modelSortKey x := h y (List.mem_cons_self y ys)
    simp only [List.cons_append, insertByKey, if_neg (Nat.not_le.mpr hy)]
    rw [show ys.append m = ys ++ m from rfl, ih m (fun z hz => h z (List.mem_cons_of_mem y hz))]

theorem tierNames_key {k : Nat} {names : List String} {y : String}
    (h : y ∈ tierNames k names) : modelSortKey y = k := by
  have := (List.mem_filter.mp h).2
  simpa using this

theorem sortModels_tiered : ∀ names : List String,
    sortModels names = tierNames 0 names ++ tierNames 1 names ++ tierNames 2 names := by
  intro names
  induction names with
  | nil => rfl
  | cons x xs ih =>
    simp only [sortModels, ih]
    rcases modelSortKey_cases x with h | h | h
    · rw [insertByKey_front (fun y _ => by rw [h]; exact Nat.zero_le _)]
      simp [tierNames, List.filter_cons, h]
    · rw [show tierNames 0 xs ++ tierNames 1 xs ++ tierNames 2 xs
          = tierNames 0 xs ++ (tierNames 1 xs ++ tierNames 2 xs) from by
        simp [List.append_assoc]]
      rw [insertByKey_skip (tierNames 0 xs) _
        (fun y hy => by rw [tierNames_key hy, h]; decide)]
      rw [insertByKey_front (fun y hy => by
        rcases List.mem_append.mp hy with h1 | h2
        · rw [tierNames_key h1, h]
        · rw [tierNames_key h2, h]; decide)]
      simp [tierNames, List.filter_cons, h]
    · rw [insertByKey_skip (tierNames 0 xs ++ tierNames 1 xs) _
        (fun y hy => by
          rcases List.mem_append.mp hy with h1 | h2
          · rw [tierNames_key h1, h]; decide
          · rw [tierNames_key h2, h]; decide)]
      rw [insertByKey_front (fun y hy => by rw [tierNames_key hy, h])]
      simp [tierNames, List.filter_cons, h, List.append_assoc]

theorem pollUntilSettled_never_exits (st : Nat → String)
    (hall : ∀ j, st j = "PROCESSING") :
    ∀ (fuel i slept : Nat), pollUntilSettled st fuel i slept = none := by
  intro fuel
  induction fuel with
  | zero => intro i slept; rfl
  | succ fuel ih =>
    intro i slept
    simp only [pollUntilSettled, hall i, if_true, if_pos]
    exact ih _ _

theorem pollUntilSettled_settles (st : Nat → String) :
    ∀ (k fuel i slept : Nat), (∀ m, m < k → st (i + m) = "PROCESSING") →
    st (i + k) ≠ "PROCESSING" → k < fuel →
    pollUntilSettled st fuel i slept = some (st (i + k), slept + 2 * k) := by
  intro k
  induction k with
  | zero =>
    intro fuel i slept _ hk hf
    cases fuel with
    | zero => omega
    | succ fuel =>
      simp only [pollUntilSettled]
      rw [if_neg (by simpa using hk)]
      simp
  | succ k ih =>
    intro fuel i slept hm hk hf
    cases fuel with
    | zero => omega
    | succ fuel =>
      have h0 : st i = "PROCESSING" := by simpa using hm 0 (Nat.succ_pos k)
      have h1 : ∀ m, m < k → st (i + 1 + m) = "PROCESSING" := fun m hmk => by
        rw [show i + 1 + m = i + (m + 1) from by omega]
        exact hm (m + 1) (by omega)
      have h2 : st (i + 1 + k) ≠ "PROCESSING" := by
        rw [show i + 1 + k = i + (k + 1) from by omega]
        exact hk
      simp only [pollUntilSettled]
      rw [if_pos h0, ih fuel (i + 1) (slept + 2) h1 h2 (by omega)]
      rw [show i + 1 + k = i + (k + 1) from by omega,
        show slept + 2 + 2 * k = slept + 2 * (k + 1) from by omega]

theorem wait_for_files_active_go (fuel : Nat) (N : PyFile → Nat) :
    ∀ (files : List PyFile) (slept : Nat),
    (∀ f ∈ files, (∀ m, m < N f → f.2 m = "PROCESSING") ∧
      f.2 (N f) ≠ "PROCESSING" ∧ N f < fuel) →
    ((∀ f ∈ files, f.2 (N f) = "ACTIVE") →
      wait_for_files_active files fuel slept =
        some (Except.ok (slept + 2 * (files.map N).sum))) ∧
    ((¬ ∀ f ∈ files, f.2 (N f) = "ACTIVE") →
      ∃ name, wait_for_files_active files fuel slept =
        some (Except.error ("File " ++ name ++ " failed to process"))) := by
  intro files
  induction files with
  | nil =>
    intro slept _
    exact ⟨fun _ => by simp [wait_for_files_active], fun hna => absurd (by simp) hna⟩
  | cons f rest ih =>
    intro slept hset
    obtain ⟨name, st⟩ := f
    obtain ⟨hproc, hsettle, hfuel⟩ := hset _ (List.mem_cons_self _ _)
    have hpoll : pollUntilSettled st fuel 0 slept =
        some (st (N (name, st)), slept + 2 * N (name, st)) := by
      have := pollUntilSettled_settles st (N (name, st)) fuel 0 slept
        (fun m hm => by simpa using hproc m hm) (by simpa using hsettle) hfuel
      simpa using this
    constructor
    · intro hall
      have hact : st (N (name, st)) = "ACTIVE" := hall _ (List.mem_cons_self _ _)
      have ihrest := (ih (slept + 2 * N (name, st))
        (fun g hg => hset g (List.mem_cons_of_mem _ hg))).1
        (fun g hg => hall g (List.mem_cons_of_mem _ hg))
      simp only [wait_for_files_active, hpoll]
      rw [if_pos hact, ihrest]
      simp only [Option.some.injEq, Except.ok.injEq, List.map_cons, List.sum_cons]
      omega
    · intro hna
      by_cases hact : st (N (name, st)) = "ACTIVE"
      · have hna2 : ¬ ∀ g ∈ rest, g.2 (N g) = "ACTIVE" := by
          intro hrest
          refine hna (fun g hg => ?_)
          rcases List.mem_cons.mp hg with rfl | hg2
          · exact hact
          · exact hrest g hg2
        obtain ⟨nm, hres⟩ := (ih (slept + 2 * N (name, st))
          (fun g hg => hset g (List.mem_cons_of_mem _ hg))).2 hna2
        refine ⟨nm, ?_⟩
        simp only [wait_for_files_active, hpoll]
        rw [if_pos hact]
        exact hres
      · refine ⟨name, ?_⟩
        simp only [wait_for_files_active, hpoll]
        rw [if_neg hact]

/-!
## Claim theorems
-/

/-- C1 counterexample: an `HH:MM:SS` tag is not treated as a timestamp
marker.  With an extraction oracle that decodes a frame at every offset,
`process_sop_content` leaves `[TIMESTAMP: 1:02:03]` verbatim — no
substitution happens, contradicting the claim that `D:DD:DD` tags are
handled exactly as `MM:SS` tags — and the scan produces no tag segment at
all for this text. -/
theorem hh_mm_ss_tag_not_substituted :
    process_sop_content (fun _ _ => some "IMG") "video.mp4" "[TIMESTAMP: 1:02:03]" =
      some "[TIMESTAMP: 1:02:03]" ∧
    (tokenize "[TIMESTAMP: 1:02:03]".data).all Seg.isLit = true := by
  decide

/-- C1 (amended): the tag pattern of `process_sop_content` matches only
`MM:SS`-form groups `\d{1,2}:\d{2}`; every matched marker's group is a one-
or two-digit minutes part and a two-digit seconds part, it is parsed to
`minutes * 60 + seconds` (never via the `HH:MM:SS` branch), and its
substitution behaviour is the snapshot-or-verbatim choice of
`renderedSeg`.  `HH:MM:SS`-form tags are treated as non-matching text (see
the counterexample `hh_mm_ss_tag_not_substituted`). -/
theorem timestamp_tag_mm_ss_only (text : String) :
    ∀ o g : List Char, Seg.tag o g ∈ tokenize text.data →
      ∃ (a b : List Char) (va vb : Nat),
        g = a ++ ':' :: b ∧ (a.length = 1 ∨ a.length = 2) ∧ b.length = 2 ∧
        (∀ c ∈ a, c.isDigit = true) ∧ (∀ c ∈ b, c.isDigit = true) ∧
        digitsToNat a = some va ∧ digitsToNat b = some vb ∧
        time_str_to_seconds (String.mk g) = some ((va : Int) * 60 + vb) ∧
        ∀ (e : String → Int → Option String) (p : String),
          renderSeg e p (Seg.tag o g) = some (renderedSeg e p (Seg.tag o g)) := by
  intro o g hmem
  obtain ⟨l2, rest, heq⟩ := tokenizeF_tag_mem _ _ o g hmem
  obtain ⟨_, _, a, b, hg, hal, hbl, hda, hdb⟩ := tryMatch_spec heq
  obtain ⟨va, hva⟩ := digitsToNat_some hda
    (by rcases hal with h | h <;> exact List.length_pos.mp (by omega))
  obtain ⟨vb, hvb⟩ := digitsToNat_some hdb (List.length_pos.mp (by omega))
  have hts : time_str_to_seconds (String.mk g) = some ((va : Int) * 60 + vb) := by
    rw [hg]
    exact time_str_two_part hva hvb
  refine ⟨a, b, va, vb, hg, hal, hbl, hda, hdb, hva, hvb, hts, ?_⟩
  intro e p
  exact renderSeg_eq_renderedSeg ⟨a, b, hg, hal, hbl, hda, hdb⟩ e p

/-- Witness for `timestamp_tag_mm_ss_only`, instantiated at the marker
matched inside `"x [TIMESTAMP: 00:05] y"`. -/
theorem timestamp_tag_mm_ss_only_witness :
    ∃ (a b : List Char) (va vb : Nat),
      "00:05".data = a ++ ':' :: b ∧ (a.length = 1 ∨ a.length = 2) ∧ b.length = 2 ∧
      (∀ c ∈ a, c.isDigit = true) ∧ (∀ c ∈ b, c.isDigit = true) ∧
      digitsToNat a = some va ∧ digitsToNat b = some vb ∧
      time_str_to_seconds (String.mk "00:05".data) = some ((va : Int) * 60 + vb) ∧
      ∀ (e : String → Int → Option String) (p : String),
        renderSeg e p (Seg.tag "[TIMESTAMP: 00:05]".data "00:05".data) =
          some (renderedSeg e p (Seg.tag "[TIMESTAMP: 00:05]".data "00:05".data)) :=
  timestamp_tag_mm_ss_only "x [TIMESTAMP: 00:05] y"
    "[TIMESTAMP: 00:05]".data "00:05".data (by decide)

/-- C2: the annotation pass decomposes the text into non-matching
characters and matched markers whose original texts concatenate back to
the input (nothing dropped or duplicated); it always succeeds, and its
output is exactly the concatenation in which every non-matching character
is preserved and every marker contributes exactly one chunk — a single
inline snapshot reference when the oracle extracts a frame, its original
literal text otherwise. -/
theorem annotate_marker_invariant (e : String → Int → Option String)
    (p : String) (text : String) :
    ((tokenize text.data).map segText).flatten = text.data ∧
    process_sop_content e p text =
      some (String.mk (((tokenize text.data).map (renderedSeg e p)).flatten)) ∧
    ∀ s ∈ tokenize text.data,
      (∃ c, s = Seg.lit c ∧ renderedSeg e p s = [c]) ∨
      ∃ o g, s = Seg.tag o g ∧
        (renderedSeg e p s = o ∨
         ∃ img, e p ((time_str_to_seconds (String.mk g)).getD 0) = some img ∧
           renderedSeg e p s = snapshotRef g img) := by
  refine ⟨tokenizeF_join _ _ (le_refl _), ?_, ?_⟩
  · unfold process_sop_content
    rw [show tokenize text.data = tokenizeF text.data.length text.data from rfl,
      renderSegs_tokenizeF e p _ _ (le_refl _)]
    rfl
  · intro s hs
    cases s with
    | lit c => exact Or.inl ⟨c, rfl, rfl⟩
    | tag o g =>
      refine Or.inr ⟨o, g, rfl, ?_⟩
      cases hep : e p ((time_str_to_seconds (String.mk g)).getD 0) with
      | none => exact Or.inl (by simp [renderedSeg, hep])
      | some img => exact Or.inr ⟨img, rfl, by simp [renderedSeg, hep]⟩

/-- Witness for `annotate_marker_invariant`: the spec's scenario — the tag
in `"Step 1 [TIMESTAMP: 00:05] done"` is replaced by exactly one inline
image reference between "Step 1" and "done". -/
theorem annotate_marker_invariant_witness :
    process_sop_content (fun _ s => if s = 5 then some "IMG" else none) "v"
      "Step 1 [TIMESTAMP: 00:05] done" =
      some "Step 1 \n![Snapshot at 00:05](IMG)\n done" := by
  have h := (annotate_marker_invariant (fun _ s => if s = 5 then some "IMG" else none) "v"
    "Step 1 [TIMESTAMP: 00:05] done").2.1
  rw [h]
  decide

/-- C3 counterexample: the conversion is not total — on `"abc"` (a shape
that is neither `MM:SS` nor `HH:MM:SS`) `int("abc")` raises `ValueError`
(modelled as `none`) instead of returning 0. -/
theorem time_str_raises_on_nonnumeric : time_str_to_seconds "abc" = none := by
  decide

/-- C3 (amended): the conversion returns 0 exactly for the inputs whose
colon-separated parts all convert with `int` but number neither 2 nor 3;
for any input with a part `int` cannot convert it raises `ValueError`
(the parse is lenient about arity, not total). -/
theorem time_str_other_arity_yields_zero (s : String) (parts : List Int)
    (h : mapIntParts (pySplit s.data) = some parts)
    (h2 : parts.length ≠ 2) (h3 : parts.length ≠ 3) :
    time_str_to_seconds s = some 0 := by
  unfold time_str_to_seconds
  rw [h]
  rcases parts with _ | ⟨a, _ | ⟨b, _ | ⟨c, _ | ⟨d, rest⟩⟩⟩⟩
  · rfl
  · rfl
  · exact absurd rfl h2
  · exact absurd rfl h3
  · rfl

/-- Witness for `time_str_other_arity_yields_zero` at the four-part input
`"1:2:3:4"`. -/
theorem time_str_other_arity_yields_zero_witness :
    time_str_to_seconds "1:2:3:4" = some 0 :=
  time_str_other_arity_yields_zero "1:2:3:4" [1, 2, 3, 4]
    (by decide) (by decide) (by decide)

/-- C4: on every valid `MM:SS` input the conversion returns exactly
`M*60+S`, on every valid `HH:MM:SS` input exactly `H*3600+M*60+S`; in
particular `"01:30"` maps to 90 and `"01:02:03"` to 3723. -/
theorem time_str_to_seconds_exact :
    (∀ (a b : List Char) (va vb : Nat), digitsToNat a = some va →
      digitsToNat b = some vb →
      time_str_to_seconds (String.mk (a ++ ':' :: b)) = some ((va : Int) * 60 + vb)) ∧
    (∀ (a b c : List Char) (va vb vc : Nat), digitsToNat a = some va →
      digitsToNat b = some vb → digitsToNat c = some vc →
      time_str_to_seconds (String.mk (a ++ ':' :: (b ++ ':' :: c))) =
        some ((va : Int) * 3600 + (vb : Int) * 60 + vc)) ∧
    time_str_to_seconds "01:30" = some 90 ∧
    time_str_to_seconds "01:02:03" = some 3723 :=
  ⟨fun _ _ _ _ ha hb => time_str_two_part ha hb,
   fun _ _ _ _ _ _ ha hb hc => time_str_three_part ha hb hc,
   by decide, by decide⟩

/-- Witness for `time_str_to_seconds_exact` at `"07:30"` = 450 seconds. -/
theorem time_str_to_seconds_exact_witness :
    time_str_to_seconds (String.mk ("07".data ++ ':' :: "30".data)) = some 450 :=
  (time_str_to_seconds_exact.1 "07".data "30".data 7 30 (by decide) (by decide)).trans
    (by decide)

/-- C5: `get_available_models` returns the generation-capable names
ordered with every name containing "gemini-1.5-pro" first, every name
containing "gemini-1.5-flash" second, and all others last, each block
keeping provider order (stable sort); in particular the spec's example
input sorts as claimed. -/
theorem get_available_models_tiered (ms : List GenModel) :
    get_available_models ms =
      tierNames 0 (generationCapableNames ms) ++
      tierNames 1 (generationCapableNames ms) ++
      tierNames 2 (generationCapableNames ms) ∧
    get_available_models
      [⟨"models/gemini-1.5-flash", ["generateContent"]⟩,
       ⟨"models/gemini-1.5-pro", ["generateContent"]⟩,
       ⟨"models/other-model", ["generateContent"]⟩] =
      ["models/gemini-1.5-pro", "models/gemini-1.5-flash", "models/other-model"] :=
  ⟨sortModels_tiered _, by decide⟩

/-- C6: on text whose scan finds no timestamp tag — in particular the
output of a previous annotation pass in which every tag was substituted —
`process_sop_content` returns the input unchanged. -/
theorem annotate_idempotent_on_tag_free (e : String → Int → Option String)
    (p : String) (text : String)
    (h : ∀ s ∈ tokenize text.data, s.isLit = true) :
    process_sop_content e p text = some text := by
  unfold process_sop_content
  rw [renderSegs_all_lit e p _ h]
  simp only [Option.map_some']
  rw [show tokenize text.data = tokenizeF text.data.length text.data from rfl,
    tokenizeF_join _ _ (le_refl _)]

/-- Witness for `annotate_idempotent_on_tag_free` on already-annotated
text (a snapshot reference, no raw tag). -/
theorem annotate_idempotent_on_tag_free_witness :
    process_sop_content (fun _ _ => some "IMG") "v"
      "Step 1 \n![Snapshot at 00:05](data:image/jpeg;base64,AA)\n done" =
      some "Step 1 \n![Snapshot at 00:05](data:image/jpeg;base64,AA)\n done" :=
  annotate_idempotent_on_tag_free _ _ _ (by decide)

/-- C7: `wait_for_files_active` sleeps 2 seconds between successive polls
of a still-PROCESSING file (the success value totals 2 seconds per
PROCESSING observation); whenever every file settles within the simulated
poll budget it returns normally exactly when every file's first
non-PROCESSING state is ACTIVE and raises the source's
"failed to process" error exactly when some file settles in any other
state; and the polling loop never exits on its own while a file keeps
reporting PROCESSING (there is no timeout). -/
theorem wait_for_files_active_spec (files : List PyFile) (fuel : Nat)
    (N : PyFile → Nat)
    (hset : ∀ f ∈ files, (∀ m, m < N f → f.2 m = "PROCESSING") ∧
      f.2 (N f) ≠ "PROCESSING" ∧ N f < fuel) :
    ((∀ f ∈ files, f.2 (N f) = "ACTIVE") →
      wait_for_files_active files fuel 0 =
        some (Except.ok (2 * (files.map N).sum))) ∧
    ((¬ ∀ f ∈ files, f.2 (N f) = "ACTIVE") →
      ∃ name, wait_for_files_active files fuel 0 =
        some (Except.error ("File " ++ name ++ " failed to process"))) ∧
    (∀ st : Nat → String, (∀ j, st j = "PROCESSING") →
      ∀ fl i slept : Nat, pollUntilSettled st fl i slept = none) := by
  have h := wait_for_files_active_go fuel N files 0 hset
  exact ⟨fun ha => by simpa using h.1 ha, h.2,
    fun st hall => pollUntilSettled_never_exits st hall⟩

/-- Witness for `wait_for_files_active_spec`: one file that reports
PROCESSING twice and then ACTIVE returns success after 4 seconds of
sleep. -/
theorem wait_for_files_active_spec_witness :
    wait_for_files_active
      [("vid", fun n => if n < 2 then "PROCESSING" else "ACTIVE")] 3 0 =
      some (Except.ok 4) := by
  have h := wait_for_files_active_spec
    [("vid", fun n => if n < 2 then "PROCESSING" else "ACTIVE")] 3 (fun _ => 2)
    (by
      intro f hf
      have hf2 := List.mem_singleton.mp hf
      subst hf2
      refine ⟨fun m hm => ?_, by decide, by decide⟩
      show (if m < 2 then "PROCESSING" else "ACTIVE") = "PROCESSING"
      rw [if_pos hm])
  have h1 := h.1 (by
    intro f hf
    have hf2 := List.mem_singleton.mp hf
    subst hf2
    decide)
  simpa using h1

/-- C8: `specific_markdown_to_html` applies its substitutions in the fixed
order bold/italic, headers, list items, images, newline-to-`<br>` last;
converting `"**Bold** and *italic*"` produces
`"<b>Bold</b> and <i>italic</i>"` already before the line-break pass, and
the full conversion preserves it. -/
theorem markdown_to_html_order :
    (∀ t : String, specific_markdown_to_html t =
      String.mk (brPass (markdownStagesBeforeBr t).data)) ∧
    markdownStagesBeforeBr "**Bold** and *italic*" =
      "<b>Bold</b> and <i>italic</i>" ∧
    specific_markdown_to_html "**Bold** and *italic*" =
      "<b>Bold</b> and <i>italic</i>" :=
  ⟨fun _ => rfl, by decide, by decide⟩

/-- C9: the annotation pass is deterministic — two runs on the same text
and video path under extraction oracles that agree on every
(path, offset) pair produce identical output. -/
theorem annotate_deterministic (e1 e2 : String → Int → Option String)
    (p : String) (text : String) (h : ∀ q s, e1 q s = e2 q s) :
    process_sop_content e1 p text = process_sop_content e2 p text := by
  have he : e1 = e2 := funext fun q => funext fun s => h q s
  rw [he]

/-- Witness for `annotate_deterministic` with two syntactically different
but pointwise-equal oracles. -/
theorem annotate_deterministic_witness :
    process_sop_content (fun _ _ => none) "v" "a [TIMESTAMP: 0:10] b" =
      process_sop_content (fun _ s => if s = s then none else some "x") "v"
        "a [TIMESTAMP: 0:10] b" :=
  annotate_deterministic _ _ _ _ (fun q s => by simp)

/-- C10: for every accepted video container type the pipeline uploads the
video bytes with hardcoded MIME type "video/mp4", uploads every optional
observation image with "image/jpeg", and issues no upload with any other
MIME type, regardless of the file's actual container or image type. -/
theorem generate_sop_upload_mime_hardcoded (stem ext : String)
    (_hext : ext ∈ video_upload_types) (img : Option String) :
    (generate_sop_uploads (stem ++ "." ++ ext) img).head? =
      some (UploadCall.upload (stem ++ "." ++ ext) (some "video/mp4")) ∧
    (∀ p, img = some p →
      UploadCall.upload p (some "image/jpeg") ∈
        generate_sop_uploads (stem ++ "." ++ ext) img) ∧
    (∀ c ∈ generate_sop_uploads (stem ++ "." ++ ext) img,
      ∃ q m, c = UploadCall.upload q m ∧
        (m = some "video/mp4" ∨ m = some "image/jpeg")) := by
  refine ⟨rfl, ?_, ?_⟩
  · intro p hp
    subst hp
    simp [generate_sop_uploads]
  · intro c hc
    cases img with
    | none =>
      simp only [generate_sop_uploads] at hc
      rcases List.mem_cons.mp hc with rfl | h2
      · exact ⟨_, _, rfl, Or.inl rfl⟩
      · simp at h2
    | some q2 =>
      simp only [generate_sop_uploads] at hc
      rcases List.mem_cons.mp hc with rfl | h2
      · exact ⟨_, _, rfl, Or.inl rfl⟩
      · have := List.mem_singleton.mp h2
        subst this
        exact ⟨_, _, rfl, Or.inr rfl⟩

/-- Witness for `generate_sop_upload_mime_hardcoded` at an `mkv` video and
a `png` observation image. -/
theorem generate_sop_upload_mime_hardcoded_witness :
    (generate_sop_uploads ("video" ++ "." ++ "mkv") (some "obs.png")).head? =
      some (UploadCall.upload ("video" ++ "." ++ "mkv") (some "video/mp4")) ∧
    (∀ p, (some "obs.png" : Option String) = some p →
      UploadCall.upload p (some "image/jpeg") ∈
        generate_sop_uploads ("video" ++ "." ++ "mkv") (some "obs.png")) ∧
    (∀ c ∈ generate_sop_uploads ("video" ++ "." ++ "mkv") (some "obs.png"),
      ∃ q m, c = UploadCall.upload q m ∧
        (m = some "video/mp4" ∨ m = some "image/jpeg")) :=
  generate_sop_upload_mime_hardcoded "video" "mkv" (by decide) (some "obs.png")
